import Mathlib

/-!
# Verification of the tabular Q-learning agent (`smolrl/agents/q_learning.py`)

A shallow embedding of the Q-learning agent core: the value function
(`DiscreteQFunc` / `ContinuousQFunc`), the `Learner`, the `EpsilonGreedy`
explorer and the `QLearningAgent` facade.  Numeric values are modelled as
rationals; numpy arrays as `Array`; Python exceptions (`IndexError`,
`ValueError`, `NotImplementedError`, `AttributeError`) as an error type
threaded through `Except`.  Randomness is modelled as an explicit stream of
rationals in `[0,1)` with a cursor, so that every draw of the source
(`rng.uniform`, `rng.choice`, `action_space.sample`) is a deterministic
function of an explicit generator state.
-/

namespace SmolRL

/-- Python exceptions raised by the agent core.  `indexError` is numpy's
`IndexError` (the spec's `OutOfRange`); `notImplementedError` is Python's
`NotImplementedError`, raised both by the abstract `BaseQFunc` methods that
`ContinuousQFunc` leaves unimplemented (the spec's `UnsupportedSpaceKind`)
and by `Learner.__post_init__` on an unrecognised space; `valueError` is
numpy's `ValueError` from `np.max` on an empty axis; `attributeError` is
Python's `AttributeError` (e.g. reading `.n` from a non-discrete space). -/
inductive PyErr where
  | indexError
  | valueError
  | notImplementedError
  | attributeError
  deriving DecidableEq

/-- Observation / action space descriptors: `gymnasium.spaces.Discrete n`,
`gymnasium.spaces.Box` (continuous), or any other space kind. -/
inductive Space where
  | discrete (n : ℕ)
  | box
  | other
  deriving DecidableEq

/-- Python/numpy index resolution for an axis of length `len`: indices in
`[0, len)` are used as-is, indices in `[-len, 0)` wrap around to `i + len`,
anything else is an `IndexError`. -/
def pyIndex (len : ℕ) (i : ℤ) : Option ℕ :=
  if 0 ≤ i then
    if i < (len : ℤ) then some i.toNat else none
  else
    if -(len : ℤ) ≤ i then some (i + len).toNat else none

/-- Lift an index-resolution result into `Except`, raising `IndexError`. -/
def toIdx : Option ℕ → Except PyErr ℕ
  | some i => .ok i
  | none => .error .indexError

/-- The dense Q-table: a 2-d numpy array indexed `[state][action]`. -/
abbrev QTable := Array (Array ℚ)

/-- `np.zeros((n, m))`. -/
def np_zeros (n m : ℕ) : QTable := Array.mkArray n (Array.mkArray m (0 : ℚ))

/-- `np.max` over a 1-d array; raises `ValueError` on an empty array. -/
def np_max (row : Array ℚ) : Except PyErr ℚ :=
  match row.toList with
  | [] => .error .valueError
  | x :: xs => .ok (xs.foldl max x)

/-- The Q-function variants.  `discrete` is `DiscreteQFunc` carrying the dense
`_qtable`; `continuous` is `ContinuousQFunc`, whose only state is the unused
`_qfunc` deque (it implements `reset` but none of the value operations). -/
inductive QFunc where
  | discrete (qtable : QTable)
  | continuous (memory : List ℚ)
  deriving DecidableEq

/-- `DiscreteQFunc.get_q_value`: `self._qtable[state, action]` with numpy
index semantics per axis.  On `ContinuousQFunc` the method is inherited from
the abstract `BaseQFunc` and raises `NotImplementedError`. -/
def QFunc.get_q_value : QFunc → ℤ → ℤ → Except PyErr ℚ
  | .discrete t, state, action => do
      let i ← toIdx (pyIndex t.size state)
      let row := t.getD i #[]
      let j ← toIdx (pyIndex row.size action)
      .ok (row.getD j 0)
  | .continuous _, _, _ => .error .notImplementedError

/-- `DiscreteQFunc.max_q_prime`: `np.max(self._qtable[state, :])`.
Unimplemented (raises `NotImplementedError`) on `ContinuousQFunc`. -/
def QFunc.max_q_prime : QFunc → ℤ → Except PyErr ℚ
  | .discrete t, state => do
      let i ← toIdx (pyIndex t.size state)
      np_max (t.getD i #[])
  | .continuous _, _ => .error .notImplementedError

/-- `DiscreteQFunc.get_qs_for_actions`: `self._qtable[state, :]`.
Unimplemented (raises `NotImplementedError`) on `ContinuousQFunc`. -/
def QFunc.get_qs_for_actions : QFunc → ℤ → Except PyErr (Array ℚ)
  | .discrete t, state => do
      let i ← toIdx (pyIndex t.size state)
      .ok (t.getD i #[])
  | .continuous _, _ => .error .notImplementedError

/-- `DiscreteQFunc.update`: `self._qtable[state, action] = q_update`.
Unimplemented (raises `NotImplementedError`) on `ContinuousQFunc`. -/
def QFunc.update : QFunc → ℚ → ℤ → ℤ → Except PyErr QFunc
  | .discrete t, q_update, state, action => do
      let i ← toIdx (pyIndex t.size state)
      let row := t.getD i #[]
      let j ← toIdx (pyIndex row.size action)
      .ok (.discrete (t.setD i (row.setD j q_update)))
  | .continuous _, _, _, _ => .error .notImplementedError

/-- `DiscreteQFunc.reset`: `self._qtable.fill(0)`; `ContinuousQFunc.reset`:
`self._qfunc.clear()`. -/
def QFunc.reset : QFunc → QFunc
  | .discrete t => .discrete (t.map (fun row => row.map (fun _ => (0 : ℚ))))
  | .continuous _ => .continuous []

/-- The `Learner` dataclass after `__post_init__`: hyperparameters plus the
owned Q-function. -/
structure Learner where
  learning_rate : ℚ
  gamma : ℚ
  qfunc : QFunc
  deriving DecidableEq

/-- `Learner.__post_init__`: picks `ContinuousQFunc` for a `Box` observation
space, `DiscreteQFunc` for a `Discrete` one (whose own `__post_init__` reads
`.n` from both spaces and allocates `np.zeros((n, m))`), and raises
`NotImplementedError` for any other space kind.  Reading `.n` from a
non-discrete action space raises `AttributeError`. -/
def mkLearner (learning_rate gamma : ℚ) (obs_space action_space : Space) :
    Except PyErr Learner :=
  match obs_space with
  | .box => .ok ⟨learning_rate, gamma, .continuous []⟩
  | .discrete n =>
      match action_space with
      | .discrete m => .ok ⟨learning_rate, gamma, .discrete (np_zeros n m)⟩
      | _ => .error .attributeError
  | .other => .error .notImplementedError

/-- `Learner.calc_q_update`:
`delta = reward + gamma * max_q_prime(new_state) - get_q_value(state, action)`;
`q_update = get_q_value(state, action) + learning_rate * delta`,
evaluated in the source's order. -/
def Learner.calc_q_update (l : Learner) (state action : ℤ) (reward : ℚ)
    (new_state : ℤ) : Except PyErr ℚ := do
  let m ← l.qfunc.max_q_prime new_state
  let q ← l.qfunc.get_q_value state action
  let delta := reward + l.gamma * m - q
  let q2 ← l.qfunc.get_q_value state action
  .ok (q2 + l.learning_rate * delta)

/-- `Learner.max_q_prime`: delegates to the Q-function. -/
def Learner.max_q_prime (l : Learner) (state : ℤ) : Except PyErr ℚ :=
  l.qfunc.max_q_prime state

/-- `Learner.get_qs_for_actions`: delegates to the Q-function. -/
def Learner.get_qs_for_actions (l : Learner) (state : ℤ) :
    Except PyErr (Array ℚ) :=
  l.qfunc.get_qs_for_actions state

/-- `Learner.update`: delegates to `self.qfunc.update(q_update, state, action)`. -/
def Learner.update (l : Learner) (q_update : ℚ) (state action : ℤ) :
    Except PyErr Learner := do
  let qf ← l.qfunc.update q_update state action
  .ok ⟨l.learning_rate, l.gamma, qf⟩

/-- `Learner.reset`: delegates to `self.qfunc.reset()`. -/
def Learner.reset (l : Learner) : Learner :=
  ⟨l.learning_rate, l.gamma, l.qfunc.reset⟩

/-- A deterministic model of a `numpy.random.Generator`: a stream of
rationals (each draw is meant to lie in `[0,1)`) together with a cursor. -/
structure Rng where
  stream : ℕ → ℚ
  pos : ℕ

/-- Well-formedness of a generator: every value of the stream lies in
`[0,1)`, as `Generator.uniform(0, 1)` guarantees. -/
def Rng.wf (r : Rng) : Prop := ∀ i, 0 ≤ r.stream i ∧ r.stream i < 1

/-- `rng.uniform(0, 1)`: take the next stream value and advance the cursor. -/
def Rng.next (r : Rng) : ℚ × Rng := (r.stream r.pos, ⟨r.stream, r.pos + 1⟩)

/-- `rng.choice(a)`: pick a uniformly random element of `a`, modelled as
indexing by `floor(u * a.size)` for the next uniform draw `u`. -/
def Rng.choice (r : Rng) (a : Array ℕ) : ℕ × Rng :=
  let p := r.next
  (a.getD (Rat.floor (p.1 * a.size)).toNat 0, p.2)

/-- `Discrete(n).sample()`: a uniformly random integer in `[0, n)` drawn from
the space's own internal generator, modelled as `floor(u * n)`. -/
def Rng.sample_discrete (r : Rng) (n : ℕ) : ℕ × Rng :=
  let p := r.next
  ((Rat.floor (p.1 * n)).toNat, p.2)

/-- `space.sample()`: dispatch on the space kind.  Modelled for `Discrete`
spaces only (the code under verification only samples discrete action
spaces). -/
def Space.sample : Space → Rng → Except PyErr (ℕ × Rng)
  | .discrete n, r => .ok (r.sample_discrete n)
  | _, _ => .error .notImplementedError

/-- The indices at which the row `qs` attains the value `mx`:
`np.where(qs == mx)[0]`, in ascending index order, exact equality. -/
def max_ids (qs : Array ℚ) (mx : ℚ) : Array ℕ :=
  (Array.range qs.size).filter (fun i => decide (qs.getD i 0 = mx))

/-- The `EpsilonGreedy` dataclass.  `rng` is the explorer's own generator
(the `rng` field of the source); `space_rng` is the internal generator of
`action_space` that `action_space.sample()` draws from. -/
structure EpsilonGreedy where
  epsilon : ℚ
  learner : Learner
  obs_space : Space
  action_space : Space
  rng : Rng
  space_rng : Rng

/-- `EpsilonGreedy.choose_action`: draw `explor_exploit_tradeoff` from the
owned `rng`; if it is `< epsilon`, return `action_space.sample()` (drawn
from the space's internal generator); otherwise compute
`max_ids = np.where(get_qs_for_actions(state) == max_q_prime(state))[0]`
and return `rng.choice(max_ids)`. -/
def EpsilonGreedy.choose_action (e : EpsilonGreedy) (state : ℤ) :
    Except PyErr (ℕ × EpsilonGreedy) :=
  let p := e.rng.next
  if p.1 < e.epsilon then do
    let s ← e.action_space.sample e.space_rng
    .ok (s.1, ⟨e.epsilon, e.learner, e.obs_space, e.action_space, p.2, s.2⟩)
  else do
    let qs ← e.learner.get_qs_for_actions state
    let mx ← e.learner.max_q_prime state
    let c := p.2.choice (max_ids qs mx)
    .ok (c.1, ⟨e.epsilon, e.learner, e.obs_space, e.action_space, c.2, e.space_rng⟩)

/-- The `QLearningAgent` facade.  In the source the explorer holds a
reference to the agent's learner; here the agent state is the explorer
record, which carries that single shared learner. -/
structure QLearningAgent where
  explorer : EpsilonGreedy

/-- The agent's learner (the same object the explorer references). -/
def QLearningAgent.learner (ag : QLearningAgent) : Learner :=
  ag.explorer.learner

/-- `QLearningAgent.__init__`: build the `Learner` (whose `__post_init__`
may raise), then the `EpsilonGreedy` explorer around it.  `rng` is the
explorer's generator, `space_rng` the action space's internal one. -/
def mkAgent (obs_space action_space : Space) (learning_rate gamma epsilon : ℚ)
    (rng space_rng : Rng) : Except PyErr QLearningAgent := do
  let l ← mkLearner learning_rate gamma obs_space action_space
  .ok ⟨⟨epsilon, l, obs_space, action_space, rng, space_rng⟩⟩

/-- `QLearningAgent.update`: `q_update = learner.calc_q_update(...)` then
`learner.update(q_update, state, action)` — compute, then apply. -/
def QLearningAgent.update (ag : QLearningAgent) (state action : ℤ)
    (reward : ℚ) (new_state : ℤ) : Except PyErr QLearningAgent := do
  let q_update ← ag.learner.calc_q_update state action reward new_state
  let l ← ag.learner.update q_update state action
  .ok ⟨⟨ag.explorer.epsilon, l, ag.explorer.obs_space, ag.explorer.action_space,
        ag.explorer.rng, ag.explorer.space_rng⟩⟩

/-- `QLearningAgent.choose_action`: delegates to the explorer. -/
def QLearningAgent.choose_action (ag : QLearningAgent) (state : ℤ) :
    Except PyErr (ℕ × QLearningAgent) := do
  let r ← ag.explorer.choose_action state
  .ok (r.1, ⟨r.2⟩)

/-- `QLearningAgent.reset`: delegates to `learner.reset()`; the explorer's
generators and epsilon persist. -/
def QLearningAgent.reset (ag : QLearningAgent) : QLearningAgent :=
  ⟨⟨ag.explorer.epsilon, ag.explorer.learner.reset, ag.explorer.obs_space,
    ag.explorer.action_space, ag.explorer.rng, ag.explorer.space_rng⟩⟩

/-- One driver-level call into the agent. -/
inductive Op where
  | choose (state : ℤ)
  | update (state action : ℤ) (reward : ℚ) (new_state : ℤ)
  | reset

/-- Run a sequence of driver calls against the agent, collecting the chosen
actions; errors abort the run as Python exceptions do. -/
def runOps : QLearningAgent → List Op → Except PyErr (List ℕ × QLearningAgent)
  | ag, [] => .ok ([], ag)
  | ag, .choose s :: ops => do
      let r ← ag.choose_action s
      let rest ← runOps r.2 ops
      .ok (r.1 :: rest.1, rest.2)
  | ag, .update s a rw ns :: ops => do
      let ag2 ← ag.update s a rw ns
      runOps ag2 ops
  | ag, .reset :: ops => runOps ag.reset ops

/-- Shape of a dense table: `n` rows, each of length `m` — every in-bounds
`(state, action)` pair has a defined entry. -/
def Shaped (t : QTable) (n m : ℕ) : Prop :=
  t.size = n ∧ ∀ i, i < t.size → (t.getD i #[]).size = m

/-- A generator whose stream is constantly `q`. -/
def constRng (q : ℚ) : Rng := ⟨fun _ => q, 0⟩

/-- A concrete all-zero 2×2 table, as allocated for `Discrete(2)` state and
action spaces. -/
def exTable : QTable := #[#[0, 0], #[0, 0]]

/-- A concrete learner over `exTable` with `learning_rate = 1/2`,
`gamma = 9/10`. -/
def exLearner : Learner := ⟨1/2, 9/10, .discrete exTable⟩

/-- A concrete agent wrapping `exLearner` with `epsilon = 1/10`. -/
def exAgent : QLearningAgent :=
  ⟨⟨1/10, exLearner, .discrete 2, .discrete 2, constRng 0, constRng 0⟩⟩

/-- The agent obtained from `exAgent` by `update(0, 0, reward := 1,
newState := 1)`, with the written cell kept in unevaluated TD form. -/
def exAgentUpd : QLearningAgent :=
  ⟨⟨1/10, ⟨1/2, 9/10,
    .discrete #[#[(0 : ℚ) + 1/2 * (1 + 9/10 * max 0 0 - 0), 0], #[0, 0]]⟩,
    .discrete 2, .discrete 2, constRng 0, constRng 0⟩⟩

/-- The agent obtained from `exAgent` by `update(0, 0, reward := 1,
newState := 1)`: the `(0,0)` cell becomes `1/2`. -/
def exAgent2 : QLearningAgent :=
  ⟨⟨1/10, ⟨1/2, 9/10, .discrete #[#[1/2, 0], #[0, 0]]⟩, .discrete 2, .discrete 2,
    constRng 0, constRng 0⟩⟩

/-- A learner over a 1×2 table whose single state has two tied maximal
actions (both entries `1`). -/
def exTieLearner : Learner := ⟨1/2, 9/10, .discrete #[#[1, 1]]⟩

/-- An explorer with `epsilon = 0` over `exTieLearner`. -/
def exTieExplorer : EpsilonGreedy :=
  ⟨0, exTieLearner, .discrete 1, .discrete 2, constRng 0, constRng 0⟩

/-- An explorer with `epsilon = 1` over `exTieLearner`. -/
def exExploreExplorer : EpsilonGreedy :=
  ⟨1, exTieLearner, .discrete 1, .discrete 2, constRng 0, constRng 0⟩

/-- Same as `exExploreExplorer` but with a different internal state of the
ACTION SPACE's generator (the explorer's own generator is identical). -/
def exExploreExplorer2 : EpsilonGreedy :=
  ⟨1, exTieLearner, .discrete 1, .discrete 2, constRng 0, constRng (1/2)⟩

/-- Everything of an agent state except the action space's internal
generator: epsilon, learner (value table), spaces, and the explorer's own
generator. -/
def stripSpace (ag : QLearningAgent) : ℚ × Learner × Space × Space × Rng :=
  (ag.explorer.epsilon, ag.explorer.learner, ag.explorer.obs_space,
    ag.explorer.action_space, ag.explorer.rng)

/- ### Index and array lemmas -/

theorem pyIndex_some_lt {len : ℕ} {i : ℤ} {j : ℕ}
    (h : pyIndex len i = some j) : j < len := by
  unfold pyIndex at h
  by_cases h0 : 0 ≤ i
  · simp only [h0, if_true] at h
    by_cases h1 : i < (len : ℤ)
    · simp only [h1, if_true, Option.some.injEq] at h
      omega
    · simp [h1] at h
  · simp only [h0, if_false] at h
    by_cases h1 : -(len : ℤ) ≤ i
    · simp only [h1, if_true, Option.some.injEq] at h
      omega
    · simp [h1] at h

theorem pyIndex_natCast {len j : ℕ} (h : j < len) :
    pyIndex len (j : ℤ) = some j := by
  unfold pyIndex
  rw [if_pos (Int.natCast_nonneg j), if_pos (by exact_mod_cast h)]
  simp

theorem pyIndex_eq_none {len : ℕ} {i : ℤ} :
    pyIndex len i = none ↔ i < -(len : ℤ) ∨ (len : ℤ) ≤ i := by
  unfold pyIndex
  by_cases h0 : 0 ≤ i
  · by_cases h1 : i < (len : ℤ) <;> simp [h0, h1] <;> omega
  · by_cases h1 : -(len : ℤ) ≤ i <;> simp [h0, h1] <;> omega

theorem pyIndex_resolve {len : ℕ} {i : ℤ} {j : ℕ}
    (h : pyIndex len i = some j) :
    (0 ≤ i ∧ i = (j : ℤ)) ∨ (i < 0 ∧ i + len = (j : ℤ)) := by
  unfold pyIndex at h
  by_cases h0 : 0 ≤ i
  · by_cases h1 : i < (len : ℤ) <;> simp [h0, h1] at h <;> omega
  · by_cases h1 : -(len : ℤ) ≤ i <;> simp [h0, h1] at h <;> omega

theorem getD_eq_getElem {α : Type} (a : Array α) (d : α) {i : ℕ}
    (h : i < a.size) : a.getD i d = a[i] := by
  unfold Array.getD
  rw [dif_pos h]
  rfl

theorem getD_eq_default {α : Type} (a : Array α) (d : α) {i : ℕ}
    (h : a.size ≤ i) : a.getD i d = d := by
  unfold Array.getD
  rw [dif_neg (by omega)]

theorem getD_setD_self {α : Type} (a : Array α) (d v : α) {i : ℕ}
    (h : i < a.size) : (a.setD i v).getD i d = v := by
  unfold Array.setD
  rw [dif_pos h, getD_eq_getElem _ _ (by simpa using h)]
  simp [Array.get_set]

theorem getD_setD_ne {α : Type} (a : Array α) (d v : α) {i j : ℕ}
    (hne : i ≠ j) : (a.setD i v).getD j d = a.getD j d := by
  unfold Array.setD
  by_cases hi : i < a.size
  · rw [dif_pos hi]
    by_cases hj : j < a.size
    · rw [getD_eq_getElem _ _ (by simpa using hj), getD_eq_getElem _ _ hj]
      exact Array.getElem_set_ne a ⟨i, hi⟩ v (by simpa using hj) hne
    · rw [getD_eq_default _ _ (by simpa using (le_of_not_lt hj)),
        getD_eq_default _ _ (le_of_not_lt hj)]
  · rw [dif_neg hi]

theorem size_setD_eq {α : Type} (a : Array α) (i : ℕ) (v : α) :
    (a.setD i v).size = a.size :=
  Array.size_setD a i v

/- ### `np_max` and `foldl max` lemmas -/

theorem init_le_foldl_max (x : ℚ) (xs : List ℚ) : x ≤ xs.foldl max x := by
  induction xs generalizing x with
  | nil => exact le_refl x
  | cons y ys ih => exact le_trans (le_max_left x y) (ih (max x y))

theorem mem_le_foldl_max (x y : ℚ) (xs : List ℚ) (h : y ∈ xs) :
    y ≤ xs.foldl max x := by
  induction xs generalizing x with
  | nil => cases h
  | cons z zs ih =>
      rcases List.mem_cons.mp h with h1 | h1
      · subst h1
        exact le_trans (le_max_right x y) (init_le_foldl_max (max x y) zs)
      · exact ih (max x z) h1

theorem foldl_max_mem (x : ℚ) (xs : List ℚ) :
    xs.foldl max x = x ∨ xs.foldl max x ∈ xs := by
  induction xs generalizing x with
  | nil => exact Or.inl rfl
  | cons y ys ih =>
      rcases ih (max x y) with h | h
      · rcases max_choice x y with h1 | h1
        · exact Or.inl (by rw [List.foldl_cons, h, h1])
        · exact Or.inr (by rw [List.foldl_cons, h, h1]; exact List.mem_cons_self y ys)
      · exact Or.inr (List.mem_cons_of_mem y h)

theorem np_max_ok {row : Array ℚ} {v : ℚ} (h : np_max row = .ok v) :
    (∃ i, i < row.size ∧ row.getD i 0 = v) ∧
      (∀ i, i < row.size → row.getD i 0 ≤ v) := by
  unfold np_max at h
  rcases heq : row.toList with _ | ⟨x, xs⟩
  · rw [heq] at h; cases h
  · rw [heq] at h
    have hv : xs.foldl max x = v := by
      simpa using h
    have hlen : row.size = row.toList.length := Array.length_toList.symm
    have hget : ∀ i (hi : i < row.size),
        row.getD i 0 = row.toList.get ⟨i, by omega⟩ := by
      intro i hi
      rw [getD_eq_getElem _ _ hi, List.get_eq_getElem]
      exact (Array.getElem_toList (by omega)).symm
    constructor
    · have hmem : v ∈ row.toList := by
        rw [heq]
        rcases foldl_max_mem x xs with h1 | h1
        · rw [hv] at h1; rw [h1]; exact List.mem_cons_self x xs
        · rw [hv] at h1; exact List.mem_cons_of_mem x h1
      obtain ⟨⟨i, hi⟩, hgi⟩ := List.mem_iff_get.mp hmem
      exact ⟨i, by omega, by rw [hget i (by omega)]; exact hgi⟩
    · intro i hi
      rw [hget i hi]
      have hmem : row.toList.get ⟨i, by omega⟩ ∈ row.toList :=
        List.get_mem _ _ _
      have hmem2 : row.toList.get ⟨i, by omega⟩ ∈ x :: xs := by
        rw [← heq]
        exact hmem
      rcases List.mem_cons.mp hmem2 with h1 | h1
      · calc row.toList.get ⟨i, by omega⟩ = x := h1
          _ ≤ xs.foldl max x := init_le_foldl_max x xs
          _ = v := hv
      · calc row.toList.get ⟨i, by omega⟩ ≤ xs.foldl max x :=
              mem_le_foldl_max x _ xs h1
          _ = v := hv

theorem np_max_ok_of_size {row : Array ℚ} (h : 0 < row.size) :
    ∃ v, np_max row = .ok v := by
  unfold np_max
  rcases heq : row.toList with _ | ⟨x, xs⟩
  · have hl : row.toList.length = row.size := Array.length_toList
    rw [heq] at hl
    simp at hl
    omega
  · exact ⟨xs.foldl max x, rfl⟩

/- ### Floor / uniform-selection lemmas -/

theorem ratFloor_eq_floor (q : ℚ) : Rat.floor q = Int.floor q :=
  (Rat.floor_def' q).trans Rat.floor_def.symm

theorem floor_mul_toNat_lt {u : ℚ} {k : ℕ} (h0 : 0 ≤ u) (h1 : u < 1)
    (hk : 0 < k) : (Rat.floor (u * k)).toNat < k := by
  rw [ratFloor_eq_floor]
  have hkq : (0 : ℚ) < k := by exact_mod_cast hk
  have h3 : u * k < k := by
    calc u * k < 1 * k := by exact mul_lt_mul_of_pos_right h1 hkq
    _ = k := one_mul _
  have hlt : Int.floor (u * (k : ℚ)) < (k : ℤ) := Int.floor_lt.mpr (by exact_mod_cast h3)
  have hge : 0 ≤ Int.floor (u * (k : ℚ)) := Int.floor_nonneg.mpr (by positivity)
  omega

theorem floor_mul_toNat_eq_iff {u : ℚ} {k j : ℕ} (h0 : 0 ≤ u) (hk : 0 < k) :
    (Rat.floor (u * k)).toNat = j ↔ ((j : ℚ) / k ≤ u ∧ u < ((j : ℚ) + 1) / k) := by
  rw [ratFloor_eq_floor]
  have hkq : (0 : ℚ) < k := by exact_mod_cast hk
  have hge : 0 ≤ Int.floor (u * (k : ℚ)) := Int.floor_nonneg.mpr (by positivity)
  constructor
  · intro h
    have hz : Int.floor (u * (k : ℚ)) = (j : ℤ) := by omega
    obtain ⟨ha, hb⟩ := Int.floor_eq_iff.mp hz
    refine ⟨?_, ?_⟩
    · rw [div_le_iff₀ hkq]; exact_mod_cast ha
    · rw [lt_div_iff₀ hkq]; push_cast at hb; linarith
  · intro h
    obtain ⟨ha, hb⟩ := h
    rw [div_le_iff₀ hkq] at ha
    rw [lt_div_iff₀ hkq] at hb
    have hz : Int.floor (u * (k : ℚ)) = (j : ℤ) := by
      apply Int.floor_eq_iff.mpr
      constructor
      · exact_mod_cast ha
      · push_cast; linarith
    omega

/- ### Evaluation lemmas for the discrete Q-function -/

theorem calc_q_update_eq (l : Learner) (state action : ℤ) (reward : ℚ)
    (new_state : ℤ) {q m : ℚ}
    (hq : l.qfunc.get_q_value state action = .ok q)
    (hm : l.qfunc.max_q_prime new_state = .ok m) :
    l.calc_q_update state action reward new_state =
      .ok (q + l.learning_rate * (reward + l.gamma * m - q)) := by
  simp only [Learner.calc_q_update, Bind.bind, Except.bind, hq, hm]

theorem get_q_value_discrete (t : QTable) (state action : ℤ) (i0 j0 : ℕ)
    (hs : pyIndex t.size state = some i0)
    (ha : pyIndex (t.getD i0 #[]).size action = some j0) :
    QFunc.get_q_value (.discrete t) state action =
      .ok ((t.getD i0 #[]).getD j0 0) := by
  simp only [QFunc.get_q_value, hs, ha, toIdx, Bind.bind, Except.bind]

theorem get_q_value_discrete_err_state (t : QTable) (state action : ℤ)
    (hs : pyIndex t.size state = none) :
    QFunc.get_q_value (.discrete t) state action = .error .indexError := by
  simp only [QFunc.get_q_value, hs, toIdx, Bind.bind, Except.bind]

theorem get_q_value_discrete_err_action (t : QTable) (state action : ℤ) (i0 : ℕ)
    (hs : pyIndex t.size state = some i0)
    (ha : pyIndex (t.getD i0 #[]).size action = none) :
    QFunc.get_q_value (.discrete t) state action = .error .indexError := by
  simp only [QFunc.get_q_value, hs, ha, toIdx, Bind.bind, Except.bind]

theorem qfunc_update_discrete (t : QTable) (v : ℚ) (state action : ℤ) (i0 j0 : ℕ)
    (hs : pyIndex t.size state = some i0)
    (ha : pyIndex (t.getD i0 #[]).size action = some j0) :
    QFunc.update (.discrete t) v state action =
      .ok (.discrete (t.setD i0 ((t.getD i0 #[]).setD j0 v))) := by
  simp only [QFunc.update, hs, ha, toIdx, Bind.bind, Except.bind]

theorem qfunc_update_discrete_err_state (t : QTable) (v : ℚ) (state action : ℤ)
    (hs : pyIndex t.size state = none) :
    QFunc.update (.discrete t) v state action = .error .indexError := by
  simp only [QFunc.update, hs, toIdx, Bind.bind, Except.bind]

theorem qfunc_update_discrete_err_action (t : QTable) (v : ℚ) (state action : ℤ)
    (i0 : ℕ) (hs : pyIndex t.size state = some i0)
    (ha : pyIndex (t.getD i0 #[]).size action = none) :
    QFunc.update (.discrete t) v state action = .error .indexError := by
  simp only [QFunc.update, hs, ha, toIdx, Bind.bind, Except.bind]

/-- Reading back the freshly written cell returns the written value, under
the same (possibly negative, wrapped) indices. -/
theorem get_q_value_setD_self (t : QTable) (i0 j0 : ℕ) (v : ℚ) (state action : ℤ)
    (hs : pyIndex t.size state = some i0)
    (ha : pyIndex (t.getD i0 #[]).size action = some j0) :
    QFunc.get_q_value (.discrete (t.setD i0 ((t.getD i0 #[]).setD j0 v)))
      state action = .ok v := by
  have hi0 : i0 < t.size := pyIndex_some_lt hs
  have hj0 : j0 < (t.getD i0 #[]).size := pyIndex_some_lt ha
  have hsize : (t.setD i0 ((t.getD i0 #[]).setD j0 v)).size = t.size :=
    size_setD_eq t i0 _
  have hrow : (t.setD i0 ((t.getD i0 #[]).setD j0 v)).getD i0 #[] =
      (t.getD i0 #[]).setD j0 v :=
    getD_setD_self t #[] _ hi0
  have hrsize : ((t.getD i0 #[]).setD j0 v).size = (t.getD i0 #[]).size :=
    size_setD_eq _ j0 v
  rw [get_q_value_discrete _ state action i0 j0 (by rw [hsize]; exact hs)
    (by rw [hrow, hrsize]; exact ha)]
  rw [hrow, getD_setD_self _ 0 v hj0]

/-- All cells other than the written one are unchanged. -/
theorem get_q_value_setD_ne (t : QTable) (i0 j0 : ℕ) (v : ℚ)
    (hi0 : i0 < t.size) (hj0 : j0 < (t.getD i0 #[]).size) :
    ∀ i j : ℕ, ¬(i = i0 ∧ j = j0) →
      QFunc.get_q_value (.discrete (t.setD i0 ((t.getD i0 #[]).setD j0 v)))
          (i : ℤ) (j : ℤ) =
        QFunc.get_q_value (.discrete t) (i : ℤ) (j : ℤ) := by
  intro i j hne
  have hsize : (t.setD i0 ((t.getD i0 #[]).setD j0 v)).size = t.size :=
    size_setD_eq t i0 _
  by_cases hi : i < t.size
  · have hsi : pyIndex t.size (i : ℤ) = some i := pyIndex_natCast hi
    have hrowi : (t.setD i0 ((t.getD i0 #[]).setD j0 v)).getD i #[] =
        if i = i0 then (t.getD i0 #[]).setD j0 v else t.getD i #[] := by
      by_cases hii : i = i0
      · subst hii
        rw [if_pos rfl]
        exact getD_setD_self t #[] _ hi
      · rw [if_neg hii]
        exact getD_setD_ne t #[] _ (fun hh => hii hh.symm)
    by_cases hii : i = i0
    · subst hii
      rw [if_pos rfl] at hrowi
      have hj' : j ≠ j0 := fun hh => hne ⟨rfl, hh⟩
      by_cases hj : j < (t.getD i #[]).size
      · rw [get_q_value_discrete _ _ _ i j (by rw [hsize]; exact hsi)
            (by rw [hrowi, size_setD_eq]; exact pyIndex_natCast hj),
          get_q_value_discrete t _ _ i j hsi (pyIndex_natCast hj),
          hrowi, getD_setD_ne _ 0 v (fun hh => hj' hh.symm)]
      · have hnone : pyIndex (t.getD i #[]).size (j : ℤ) = none := by
          rw [pyIndex_eq_none]
          right
          exact_mod_cast le_of_not_lt hj
        rw [get_q_value_discrete_err_action _ _ _ i (by rw [hsize]; exact hsi)
            (by rw [hrowi, size_setD_eq]; exact hnone),
          get_q_value_discrete_err_action t _ _ i hsi hnone]
    · rw [if_neg hii] at hrowi
      by_cases hj : j < (t.getD i #[]).size
      · rw [get_q_value_discrete _ _ _ i j (by rw [hsize]; exact hsi)
            (by rw [hrowi]; exact pyIndex_natCast hj),
          get_q_value_discrete t _ _ i j hsi (pyIndex_natCast hj), hrowi]
      · have hnone : pyIndex (t.getD i #[]).size (j : ℤ) = none := by
          rw [pyIndex_eq_none]
          right
          exact_mod_cast le_of_not_lt hj
        rw [get_q_value_discrete_err_action _ _ _ i (by rw [hsize]; exact hsi)
            (by rw [hrowi]; exact hnone),
          get_q_value_discrete_err_action t _ _ i hsi hnone]
  · have hnone : pyIndex t.size (i : ℤ) = none := by
      rw [pyIndex_eq_none]
      right
      exact_mod_cast le_of_not_lt hi
    rw [get_q_value_discrete_err_state _ _ _ (by rw [hsize]; exact hnone),
      get_q_value_discrete_err_state t _ _ hnone]

/- ### Shape invariant lemmas -/

theorem np_zeros_getD {n m i : ℕ} (hi : i < n) :
    (np_zeros n m).getD i #[] = Array.mkArray m 0 := by
  rw [getD_eq_getElem _ _ (by simp [np_zeros]; omega)]
  simp [np_zeros]

theorem shaped_np_zeros (n m : ℕ) : Shaped (np_zeros n m) n m := by
  constructor
  · simp [np_zeros]
  · intro i hi
    have hi' : i < n := by simpa [np_zeros] using hi
    rw [np_zeros_getD hi']
    simp

theorem shaped_setD {t : QTable} {n m : ℕ} (h : Shaped t n m) (i0 j0 : ℕ) (v : ℚ) :
    Shaped (t.setD i0 ((t.getD i0 #[]).setD j0 v)) n m := by
  constructor
  · rw [size_setD_eq]
    exact h.1
  · intro i hi
    rw [size_setD_eq] at hi
    by_cases hii : i = i0
    · subst hii
      rw [getD_setD_self t #[] _ hi, size_setD_eq]
      exact h.2 i hi
    · rw [getD_setD_ne t #[] _ (fun hh => hii hh.symm)]
      exact h.2 i hi

/-- Resetting any `n × m`-shaped table yields exactly the fresh all-zero
table. -/
theorem reset_eq_np_zeros {t : QTable} {n m : ℕ} (h : Shaped t n m) :
    t.map (fun row => row.map (fun _ => (0 : ℚ))) = np_zeros n m := by
  apply Array.ext
  · simp [np_zeros, h.1]
  · intro i hi1 hi2
    have hi : i < t.size := by simpa using hi1
    have hrow : (t.getD i #[]).size = m := h.2 i hi
    rw [getD_eq_getElem _ _ hi] at hrow
    simp only [Array.getElem_map, np_zeros, Array.getElem_mkArray]
    apply Array.ext
    · simpa using hrow
    · intro j hj1 hj2
      simp

/-- A well-shaped agent state: the learner holds a discrete `n × m` table. -/
def AgentShaped (ag : QLearningAgent) (n m : ℕ) : Prop :=
  ∃ t, ag.learner.qfunc = .discrete t ∧ Shaped t n m

theorem qfunc_update_ok_discrete {t : QTable} {v : ℚ} {state action : ℤ}
    {qf2 : QFunc} (h : QFunc.update (.discrete t) v state action = .ok qf2) :
    ∃ i0 j0, pyIndex t.size state = some i0 ∧
      pyIndex (t.getD i0 #[]).size action = some j0 ∧
      qf2 = .discrete (t.setD i0 ((t.getD i0 #[]).setD j0 v)) := by
  cases hs : pyIndex t.size state with
  | none => rw [qfunc_update_discrete_err_state t v state action hs] at h; cases h
  | some i0 =>
      cases ha : pyIndex (t.getD i0 #[]).size action with
      | none =>
          rw [qfunc_update_discrete_err_action t v state action i0 hs ha] at h
          cases h
      | some j0 =>
          rw [qfunc_update_discrete t v state action i0 j0 hs ha] at h
          exact ⟨i0, j0, rfl, ha, (Except.ok.inj h).symm⟩

theorem agent_update_ok {ag ag2 : QLearningAgent} {state action : ℤ}
    {reward : ℚ} {new_state : ℤ}
    (h : ag.update state action reward new_state = .ok ag2) :
    ∃ qu qf2, ag.learner.calc_q_update state action reward new_state = .ok qu ∧
      QFunc.update ag.learner.qfunc qu state action = .ok qf2 ∧
      ag2 = ⟨⟨ag.explorer.epsilon,
        ⟨ag.learner.learning_rate, ag.learner.gamma, qf2⟩,
        ag.explorer.obs_space, ag.explorer.action_space,
        ag.explorer.rng, ag.explorer.space_rng⟩⟩ := by
  unfold QLearningAgent.update at h
  cases hc : ag.learner.calc_q_update state action reward new_state with
  | error err => rw [hc] at h; simp [Bind.bind, Except.bind] at h
  | ok qu =>
      rw [hc] at h
      simp only [Bind.bind, Except.bind] at h
      unfold Learner.update at h
      cases hu : QFunc.update ag.learner.qfunc qu state action with
      | error err => rw [hu] at h; simp [Bind.bind, Except.bind] at h
      | ok qf2 =>
          rw [hu] at h
          simp only [Bind.bind, Except.bind] at h
          exact ⟨qu, qf2, rfl, hu, (Except.ok.inj h).symm⟩

theorem choose_action_preserves {e : EpsilonGreedy} {state : ℤ} {a : ℕ}
    {e2 : EpsilonGreedy} (h : e.choose_action state = .ok (a, e2)) :
    e2.epsilon = e.epsilon ∧ e2.learner = e.learner ∧
      e2.obs_space = e.obs_space ∧ e2.action_space = e.action_space := by
  simp only [EpsilonGreedy.choose_action] at h
  split at h
  · cases hsample : e.action_space.sample e.space_rng with
    | error err => rw [hsample] at h; simp [Bind.bind, Except.bind] at h
    | ok p =>
        rw [hsample] at h
        simp only [Bind.bind, Except.bind, Except.ok.injEq, Prod.mk.injEq] at h
        obtain ⟨h1, h2⟩ := h
        rw [← h2]
        exact ⟨rfl, rfl, rfl, rfl⟩
  · cases hqs : e.learner.get_qs_for_actions state with
    | error err => rw [hqs] at h; simp [Bind.bind, Except.bind] at h
    | ok qs =>
        cases hmx : e.learner.max_q_prime state with
        | error err => rw [hqs, hmx] at h; simp [Bind.bind, Except.bind] at h
        | ok mx =>
            rw [hqs, hmx] at h
            simp only [Bind.bind, Except.bind, Except.ok.injEq, Prod.mk.injEq] at h
            obtain ⟨h1, h2⟩ := h
            rw [← h2]
            exact ⟨rfl, rfl, rfl, rfl⟩

theorem agent_choose_preserves {ag : QLearningAgent} {state : ℤ} {a : ℕ}
    {ag2 : QLearningAgent} (h : ag.choose_action state = .ok (a, ag2)) :
    ag2.learner = ag.learner ∧ ag2.explorer.epsilon = ag.explorer.epsilon ∧
      ag2.explorer.obs_space = ag.explorer.obs_space ∧
      ag2.explorer.action_space = ag.explorer.action_space := by
  unfold QLearningAgent.choose_action at h
  cases hr : ag.explorer.choose_action state with
  | error err => rw [hr] at h; simp [Bind.bind, Except.bind] at h
  | ok r =>
      rw [hr] at h
      simp only [Bind.bind, Except.bind, Except.ok.injEq, Prod.mk.injEq] at h
      obtain ⟨h1, h2⟩ := h
      obtain ⟨he, hl, ho, ha2⟩ := choose_action_preserves hr
      rw [← h2]
      exact ⟨hl, he, ho, ha2⟩

theorem agent_update_shaped {n m : ℕ} {ag ag2 : QLearningAgent}
    {state action : ℤ} {reward : ℚ} {new_state : ℤ}
    (hsh : AgentShaped ag n m)
    (h : ag.update state action reward new_state = .ok ag2) :
    AgentShaped ag2 n m := by
  obtain ⟨t, hqf, hts⟩ := hsh
  obtain ⟨qu, qf2, hc, hu, hag2⟩ := agent_update_ok h
  rw [hqf] at hu
  obtain ⟨i0, j0, hs, ha, hqf2⟩ := qfunc_update_ok_discrete hu
  subst hag2
  exact ⟨_, by rw [hqf2]; rfl, by rw [hqf2] at *; exact shaped_setD hts i0 j0 qu⟩

theorem agent_reset_shaped {n m : ℕ} {ag : QLearningAgent}
    (hsh : AgentShaped ag n m) : AgentShaped ag.reset n m := by
  obtain ⟨t, hqf, hts⟩ := hsh
  refine ⟨np_zeros n m, ?_, shaped_np_zeros n m⟩
  show (QLearningAgent.reset ag).explorer.learner.qfunc = _
  simp only [QLearningAgent.reset, Learner.reset]
  show QFunc.reset (ag.learner.qfunc) = _
  rw [hqf]
  simp only [QFunc.reset]
  rw [reset_eq_np_zeros hts]

theorem runOps_shaped {n m : ℕ} :
    ∀ (ops : List Op) (ag : QLearningAgent) (tr : List ℕ) (ag2 : QLearningAgent),
      AgentShaped ag n m → runOps ag ops = .ok (tr, ag2) → AgentShaped ag2 n m := by
  intro ops
  induction ops with
  | nil =>
      intro ag tr ag2 hsh h
      simp only [runOps, Except.ok.injEq, Prod.mk.injEq] at h
      rw [← h.2]
      exact hsh
  | cons op ops ih =>
      intro ag tr ag2 hsh h
      cases op with
      | choose s =>
          simp only [runOps] at h
          cases hr : ag.choose_action s with
          | error err => rw [hr] at h; simp [Bind.bind, Except.bind] at h
          | ok r =>
              rw [hr] at h
              simp only [Bind.bind, Except.bind] at h
              cases hrest : runOps r.2 ops with
              | error err => rw [hrest] at h; simp at h
              | ok rest =>
                  rw [hrest] at h
                  simp only [Except.ok.injEq, Prod.mk.injEq] at h
                  have hsh2 : AgentShaped r.2 n m := by
                    obtain ⟨t, hqf, hts⟩ := hsh
                    obtain ⟨hl, _, _, _⟩ := agent_choose_preserves
                      (show ag.choose_action s = .ok (r.1, r.2) from hr)
                    exact ⟨t, by rw [show r.2.learner = ag.learner from hl]; exact hqf, hts⟩
                  have := ih r.2 rest.1 rest.2 hsh2 hrest
                  rw [← h.2]
                  exact this
      | update s a rw ns =>
          simp only [runOps] at h
          cases hu : ag.update s a rw ns with
          | error err => rw [hu] at h; simp [Bind.bind, Except.bind] at h
          | ok ag3 =>
              rw [hu] at h
              simp only [Bind.bind, Except.bind] at h
              exact ih ag3 tr ag2 (agent_update_shaped hsh hu) h
      | reset =>
          simp only [runOps] at h
          exact ih ag.reset tr ag2 (agent_reset_shaped hsh) h

/- ### Explorer lemmas -/

theorem getD_mem {α : Type} (a : Array α) (d : α) {i : ℕ} (h : i < a.size) :
    a.getD i d ∈ a := by
  rw [getD_eq_getElem _ _ h, Array.mem_def, ← Array.getElem_toList (by omega)]
  exact List.getElem_mem _

theorem mem_range_iff {n i : ℕ} : i ∈ Array.range n ↔ i < n := by
  constructor
  · intro h
    rw [Array.mem_def] at h
    obtain ⟨j, hj, hg⟩ := List.mem_iff_getElem.mp h
    have hj' : j < (Array.range n).size := by
      have hlen : (Array.range n).toList.length = (Array.range n).size :=
        Array.length_toList
      omega
    rw [← hg, Array.getElem_toList hj', Array.getElem_range hj']
    rw [Array.size_range] at hj'
    exact hj'
  · intro h
    have hi : i < (Array.range n).size := by
      rw [Array.size_range]
      exact h
    have hmem := getD_mem (Array.range n) 0 hi
    rw [getD_eq_getElem _ _ hi, Array.getElem_range hi] at hmem
    exact hmem

theorem mem_max_ids {qs : Array ℚ} {mx : ℚ} {i : ℕ} :
    i ∈ max_ids qs mx ↔ i < qs.size ∧ qs.getD i 0 = mx := by
  unfold max_ids
  rw [Array.mem_filter, mem_range_iff]
  simp

/-- The row returned by `get_qs_for_actions` and the scalar returned by
`max_q_prime` for the same state are linked: the scalar is `np.max` of the
row. -/
theorem max_of_qs {l : Learner} {state : ℤ} {qs : Array ℚ} {mx : ℚ}
    (hqs : l.get_qs_for_actions state = .ok qs)
    (hmx : l.max_q_prime state = .ok mx) : np_max qs = .ok mx := by
  unfold Learner.get_qs_for_actions at hqs
  unfold Learner.max_q_prime at hmx
  cases hqf : l.qfunc with
  | continuous mem =>
      rw [hqf] at hqs
      simp only [QFunc.get_qs_for_actions] at hqs
      cases hqs
  | discrete t =>
      rw [hqf] at hqs hmx
      cases hs : pyIndex t.size state with
      | none =>
          simp only [QFunc.get_qs_for_actions, hs, toIdx, Bind.bind,
            Except.bind] at hqs
          cases hqs
      | some i =>
          simp only [QFunc.get_qs_for_actions, QFunc.max_q_prime, hs, toIdx,
            Bind.bind, Except.bind] at hqs hmx
          rw [← Except.ok.inj hqs]
          exact hmx

/-- With `epsilon = 0` and a well-formed generator, `choose_action` reduces
to the exploitation branch: pick from `max_ids` by `floor(u · k)` for the
second stream draw `u`, consuming two draws from the explorer's generator
and leaving the space's generator untouched. -/
theorem choose_action_eps0 (e : EpsilonGreedy) (state : ℤ) (qs : Array ℚ)
    (mx : ℚ) (hε : e.epsilon = 0) (hwf : e.rng.wf)
    (hqs : e.learner.get_qs_for_actions state = .ok qs)
    (hmx : e.learner.max_q_prime state = .ok mx) :
    e.choose_action state =
      .ok ((max_ids qs mx).getD
          (Rat.floor (e.rng.stream (e.rng.pos + 1) * (max_ids qs mx).size)).toNat 0,
        ⟨e.epsilon, e.learner, e.obs_space, e.action_space,
          ⟨e.rng.stream, e.rng.pos + 2⟩, e.space_rng⟩) := by
  have hnb : ¬ (e.rng.next.1 < e.epsilon) := by
    rw [hε]
    exact not_lt.mpr (hwf e.rng.pos).1
  simp only [EpsilonGreedy.choose_action]
  rw [if_neg hnb, hqs]
  simp only [Bind.bind, Except.bind]
  rw [hmx]
  simp only [Rng.choice, Rng.next]

/-- When the tradeoff draw is below `epsilon`, `choose_action` takes the
exploration branch: the returned action is `action_space.sample()`, drawn
from the space's internal generator; the explorer's generator advances by
one draw. -/
theorem choose_action_explore (e : EpsilonGreedy) (state : ℤ) {nA : ℕ}
    (has : e.action_space = .discrete nA)
    (hb : e.rng.next.1 < e.epsilon) :
    e.choose_action state =
      .ok ((Rat.floor (e.space_rng.stream e.space_rng.pos * nA)).toNat,
        ⟨e.epsilon, e.learner, e.obs_space, e.action_space,
          ⟨e.rng.stream, e.rng.pos + 1⟩,
          ⟨e.space_rng.stream, e.space_rng.pos + 1⟩⟩) := by
  simp only [EpsilonGreedy.choose_action]
  rw [if_pos hb, has]
  simp only [Space.sample, Rng.sample_discrete, Rng.next, Bind.bind, Except.bind]

/-- Closed form of the exploitation branch without success assumptions:
errors from the row read or the max propagate; on success the tie-break
selection consumes the second explorer draw; the space's generator is never
touched. -/
theorem choose_action_eps0_closed (e : EpsilonGreedy) (state : ℤ)
    (hnb : ¬(e.rng.next.1 < e.epsilon)) :
    e.choose_action state =
      match e.learner.get_qs_for_actions state with
      | .error err => .error err
      | .ok qs =>
        match e.learner.max_q_prime state with
        | .error err => .error err
        | .ok mx =>
          .ok ((max_ids qs mx).getD
              (Rat.floor (e.rng.stream (e.rng.pos + 1) *
                (max_ids qs mx).size)).toNat 0,
            ⟨e.epsilon, e.learner, e.obs_space, e.action_space,
              ⟨e.rng.stream, e.rng.pos + 2⟩, e.space_rng⟩) := by
  simp only [EpsilonGreedy.choose_action]
  rw [if_neg hnb]
  cases hqs : e.learner.get_qs_for_actions state with
  | error err => simp [Bind.bind, Except.bind]
  | ok qs =>
      cases hmx : e.learner.max_q_prime state with
      | error err => simp [Bind.bind, Except.bind]
      | ok mx => simp [Bind.bind, Except.bind, Rng.choice, Rng.next]

theorem map_bind_cons (x y : Except PyErr (List ℕ × QLearningAgent)) (a : ℕ)
    (h : x.map (fun p => (p.1, stripSpace p.2)) =
      y.map (fun p => (p.1, stripSpace p.2))) :
    (x.bind (fun rest => .ok (a :: rest.1, rest.2))).map
        (fun p => (p.1, stripSpace p.2)) =
      (y.bind (fun rest => .ok (a :: rest.1, rest.2))).map
        (fun p => (p.1, stripSpace p.2)) := by
  cases x with
  | error e1 =>
      cases y with
      | error e2 =>
          simp only [Except.map] at h
          simp only [Except.bind, Except.map]
          exact h
      | ok p => simp [Except.map] at h
  | ok p =>
      cases y with
      | error e2 => simp [Except.map] at h
      | ok p2 =>
          simp only [Except.map, Except.ok.injEq, Prod.mk.injEq] at h
          simp only [Except.bind, Except.map, Except.ok.injEq, Prod.mk.injEq]
          exact ⟨by rw [h.1], h.2⟩

/-- With `epsilon = 0` and a well-formed explorer generator, the whole run —
the action trace, the resulting value table, and the explorer's generator —
is independent of the action space's internal generator state. -/
theorem runOps_eps0_strip (os as : Space) :
    ∀ (ops : List Op) (L : Learner) (r s1 s2 : Rng), r.wf →
      (runOps ⟨⟨0, L, os, as, r, s1⟩⟩ ops).map (fun p => (p.1, stripSpace p.2)) =
        (runOps ⟨⟨0, L, os, as, r, s2⟩⟩ ops).map (fun p => (p.1, stripSpace p.2)) := by
  intro ops
  induction ops with
  | nil => intro L r s1 s2 hwfr; rfl
  | cons op ops ih =>
      intro L r s1 s2 hwfr
      cases op with
      | choose s =>
          have hnb : ¬((⟨0, L, os, as, r, s1⟩ : EpsilonGreedy).rng.next.1 <
              (⟨0, L, os, as, r, s1⟩ : EpsilonGreedy).epsilon) := by
            show ¬(r.next.1 < (0 : ℚ))
            exact not_lt.mpr (hwfr r.pos).1
          have hc1 := choose_action_eps0_closed
            (⟨0, L, os, as, r, s1⟩ : EpsilonGreedy) s hnb
          have hc2 := choose_action_eps0_closed
            (⟨0, L, os, as, r, s2⟩ : EpsilonGreedy) s hnb
          simp only [runOps, QLearningAgent.choose_action, hc1, hc2]
          cases hqs : L.get_qs_for_actions s with
          | error err => simp [Bind.bind, Except.bind, Except.map]
          | ok qs =>
              cases hmx : L.max_q_prime s with
              | error err => simp [Bind.bind, Except.bind, Except.map]
              | ok mx =>
                  simp only [Bind.bind, Except.bind]
                  have hwfr2 : (⟨r.stream, r.pos + 2⟩ : Rng).wf := fun i => hwfr i
                  exact map_bind_cons _ _ _ (ih L ⟨r.stream, r.pos + 2⟩ s1 s2 hwfr2)
      | update s a rw ns =>
          simp only [runOps, QLearningAgent.update, QLearningAgent.learner]
          cases hc : L.calc_q_update s a rw ns with
          | error err => simp [Bind.bind, Except.bind, Except.map]
          | ok qu =>
              simp only [Bind.bind, Except.bind, Learner.update]
              cases hu : L.qfunc.update qu s a with
              | error err => simp [Bind.bind, Except.bind, Except.map]
              | ok qf2 =>
                  simp only [Bind.bind, Except.bind]
                  exact ih ⟨L.learning_rate, L.gamma, qf2⟩ r s1 s2 hwfr
      | reset =>
          simp only [runOps]
          exact ih L.reset r s1 s2 hwfr

/- ### Claim theorems -/

/-- C1: `calc_q_update` returns exactly
`valueOf(state, action) + learningRate * ((reward + discount * maxValue(newState)) − valueOf(state, action))`
on the current table; in particular, on an all-zero 2×2 table with
`learningRate = 1/2` and `discount = 9/10`, `update(0, 0, reward := 1,
newState := 1)` makes `valueOf(0, 0)` exactly `1/2`. -/
theorem calc_q_update_formula :
    (∀ (l : Learner) (state action : ℤ) (reward : ℚ) (new_state : ℤ) (q m : ℚ),
        l.qfunc.get_q_value state action = .ok q →
        l.qfunc.max_q_prime new_state = .ok m →
        l.calc_q_update state action reward new_state =
          .ok (q + l.learning_rate * ((reward + l.gamma * m) - q))) ∧
    (do
        let ag ← mkAgent (.discrete 2) (.discrete 2) (1/2) (9/10) (1/10)
          (constRng 0) (constRng 0)
        let ag2 ← ag.update 0 0 1 1
        ag2.learner.qfunc.get_q_value 0 0) = .ok (1/2) := by
  constructor
  · intro l state action reward new_state q m hq hm
    simp only [Learner.calc_q_update, Bind.bind, Except.bind, hq, hm]
  · have hstep :
        (do
          let ag ← mkAgent (.discrete 2) (.discrete 2) (1/2) (9/10) (1/10)
            (constRng 0) (constRng 0)
          let ag2 ← ag.update 0 0 1 1
          ag2.learner.qfunc.get_q_value 0 0) =
        .ok (0 + (1/2 : ℚ) * (1 + (9/10 : ℚ) * (max 0 0) - 0)) := rfl
    rw [hstep]
    norm_num

/-- Witness for C1: the general formula applied to the all-zero 2×2 learner
with `learningRate = 1/2`, `discount = 9/10`, at `state = 0`, `action = 0`,
`reward = 1`, `newState = 1`. -/
theorem calc_q_update_formula_witness :
    (⟨1/2, 9/10, .discrete (np_zeros 2 2)⟩ : Learner).qfunc.get_q_value 0 0 = .ok 0 ∧
    (⟨1/2, 9/10, .discrete (np_zeros 2 2)⟩ : Learner).qfunc.max_q_prime 1 = .ok 0 ∧
    (⟨1/2, 9/10, .discrete (np_zeros 2 2)⟩ : Learner).calc_q_update 0 0 1 1 =
      .ok (0 + (1/2 : ℚ) * ((1 + (9/10 : ℚ) * 0) - 0)) := by
  have h1 : (⟨1/2, 9/10, .discrete (np_zeros 2 2)⟩ : Learner).qfunc.get_q_value 0 0 =
      .ok 0 := rfl
  have h2 : (⟨1/2, 9/10, .discrete (np_zeros 2 2)⟩ : Learner).qfunc.max_q_prime 1 =
      .ok 0 := by
    show Except.ok (max 0 0) = Except.ok 0
    norm_num
  exact ⟨h1, h2, calc_q_update_formula.1 _ 0 0 1 1 0 0 h1 h2⟩

/-- C2: `calc_q_update` only reads (in the embedding it returns a number and
no table, so the table is untouched by construction), and `Agent.update`
performs exactly one write: the resulting table is the pre-update table with
the single cell `(state, action)` replaced by a value computed from the
pre-update table contents only (`q` and `m` are pre-update reads, so the TD
target reads the pre-update value even when `newState == state`); all other
cells are unchanged. -/
theorem update_writes_once_from_pretable
    (ag : QLearningAgent) (t : QTable) (state action : ℤ) (reward : ℚ)
    (new_state : ℤ) (ag2 : QLearningAgent) (i0 j0 : ℕ) (q m : ℚ)
    (hqf : ag.learner.qfunc = .discrete t)
    (hs : pyIndex t.size state = some i0)
    (ha : pyIndex (t.getD i0 #[]).size action = some j0)
    (hq : ag.learner.qfunc.get_q_value state action = .ok q)
    (hm : ag.learner.qfunc.max_q_prime new_state = .ok m)
    (h : ag.update state action reward new_state = .ok ag2) :
    ag.learner.calc_q_update state action reward new_state =
      .ok (q + ag.learner.learning_rate * (reward + ag.learner.gamma * m - q)) ∧
    ag2.learner.qfunc = .discrete (t.setD i0 ((t.getD i0 #[]).setD j0
      (q + ag.learner.learning_rate * (reward + ag.learner.gamma * m - q)))) ∧
    (∀ i j : ℕ, ¬(i = i0 ∧ j = j0) →
      ag2.learner.qfunc.get_q_value (i : ℤ) (j : ℤ) =
        ag.learner.qfunc.get_q_value (i : ℤ) (j : ℤ)) ∧
    ag2.learner.qfunc.get_q_value state action =
      .ok (q + ag.learner.learning_rate * (reward + ag.learner.gamma * m - q)) := by
  have hv := calc_q_update_eq ag.learner state action reward new_state hq hm
  have hlu : ag.learner.update
      (q + ag.learner.learning_rate * (reward + ag.learner.gamma * m - q))
      state action =
      .ok ⟨ag.learner.learning_rate, ag.learner.gamma,
        .discrete (t.setD i0 ((t.getD i0 #[]).setD j0
          (q + ag.learner.learning_rate * (reward + ag.learner.gamma * m - q))))⟩ := by
    simp only [Learner.update, hqf,
      qfunc_update_discrete t _ state action i0 j0 hs ha, Bind.bind, Except.bind]
  simp only [QLearningAgent.update, Bind.bind, Except.bind, hv, hlu] at h
  have hag2 : ag2 = ⟨⟨ag.explorer.epsilon,
      ⟨ag.learner.learning_rate, ag.learner.gamma,
        .discrete (t.setD i0 ((t.getD i0 #[]).setD j0
          (q + ag.learner.learning_rate * (reward + ag.learner.gamma * m - q))))⟩,
      ag.explorer.obs_space, ag.explorer.action_space,
      ag.explorer.rng, ag.explorer.space_rng⟩⟩ := (Except.ok.inj h).symm
  subst hag2
  refine ⟨hv, rfl, ?_, ?_⟩
  · intro i j hne
    have hframe := get_q_value_setD_ne t i0 j0
      (q + ag.learner.learning_rate * (reward + ag.learner.gamma * m - q))
      (pyIndex_some_lt hs) (pyIndex_some_lt ha) i j hne
    rw [hqf]
    exact hframe
  · exact get_q_value_setD_self t i0 j0 _ state action hs ha

/-- Witness for C2: `exAgent.update(0, 0, reward := 1, newState := 1)` — a
single write at cell `(0,0)`; the cell `(1,1)` is untouched and the written
cell reads back the TD-updated value. -/
theorem update_writes_once_from_pretable_witness :
    exAgent.learner.qfunc = .discrete exTable ∧
    pyIndex exTable.size 0 = some 0 ∧
    pyIndex (exTable.getD 0 #[]).size 0 = some 0 ∧
    exAgent.learner.qfunc.get_q_value 0 0 = .ok 0 ∧
    exAgent.learner.qfunc.max_q_prime 1 = .ok 0 ∧
    exAgent.update 0 0 1 1 = .ok exAgent2 ∧
    exAgent2.learner.qfunc.get_q_value 1 1 = exAgent.learner.qfunc.get_q_value 1 1 ∧
    exAgent2.learner.qfunc.get_q_value 0 0 =
      .ok (0 + (1/2 : ℚ) * (1 + (9/10 : ℚ) * 0 - 0)) := by
  have hqf : exAgent.learner.qfunc = .discrete exTable := rfl
  have hs : pyIndex exTable.size 0 = some 0 := rfl
  have ha : pyIndex (exTable.getD 0 #[]).size 0 = some 0 := rfl
  have hq : exAgent.learner.qfunc.get_q_value 0 0 = .ok 0 := rfl
  have hm : exAgent.learner.qfunc.max_q_prime 1 = .ok 0 := by
    show Except.ok (max 0 0) = Except.ok 0
    norm_num
  have hstep : exAgent.update 0 0 1 1 =
      .ok ⟨⟨1/10, ⟨1/2, 9/10,
        .discrete #[#[(0 : ℚ) + 1/2 * (1 + 9/10 * max 0 0 - 0), 0], #[0, 0]]⟩,
        .discrete 2, .discrete 2, constRng 0, constRng 0⟩⟩ := rfl
  have harr : (0 : ℚ) + 1/2 * (1 + 9/10 * max 0 0 - 0) = 1/2 := by
    rw [max_self]
    norm_num
  have h : exAgent.update 0 0 1 1 = .ok exAgent2 := by
    rw [hstep, harr]
    rfl
  have hmain := update_writes_once_from_pretable exAgent exTable 0 0 1 1 exAgent2
    0 0 0 0 hqf hs ha hq hm h
  exact ⟨hqf, hs, ha, hq, hm, h,
    hmain.2.2.1 1 1 (by simp), hmain.2.2.2⟩

/-- C4 counterexample: two explorers with identical epsilon, identical
learner (value table) and identical Explorer-owned generator state, but
different internal states of the ACTION SPACE's generator, return different
actions under `epsilon = 1` — the exploration-branch action draw
(`action_space.sample()`) is NOT drawn from the Explorer's owned seedable
RNG, so fixing the Explorer's seed alone does not reproduce the run. -/
theorem explorer_rng_not_sole_randomness_source :
    exExploreExplorer.epsilon = exExploreExplorer2.epsilon ∧
    exExploreExplorer.learner = exExploreExplorer2.learner ∧
    exExploreExplorer.rng = exExploreExplorer2.rng ∧
    (exExploreExplorer.choose_action 0).map Prod.fst = .ok 0 ∧
    (exExploreExplorer2.choose_action 0).map Prod.fst = .ok 1 := by
  have hb1 : exExploreExplorer.rng.next.1 < exExploreExplorer.epsilon := by
    show (0 : ℚ) < 1
    norm_num
  have hb2 : exExploreExplorer2.rng.next.1 < exExploreExplorer2.epsilon := by
    show (0 : ℚ) < 1
    norm_num
  refine ⟨rfl, rfl, rfl, ?_, ?_⟩
  · rw [choose_action_explore exExploreExplorer 0 rfl hb1]
    show Except.ok ((Rat.floor ((0 : ℚ) * ((2 : ℕ) : ℚ))).toNat) = Except.ok 0
    have h02 : (0 : ℚ) * ((2 : ℕ) : ℚ) = 0 := by norm_num
    rw [h02]
    rfl
  · rw [choose_action_explore exExploreExplorer2 0 rfl hb2]
    show Except.ok ((Rat.floor ((1/2 : ℚ) * ((2 : ℕ) : ℚ))).toNat) = Except.ok 1
    have h12 : (1/2 : ℚ) * ((2 : ℕ) : ℚ) = 1 := by norm_num
    rw [h12]
    rfl

/-- C4 amended: the tradeoff draw and the tie-break draw come from the
Explorer's owned generator, but the exploration-branch action comes from the
action space's internal generator; with `epsilon = 0` (exploration never
taken) the whole run — action trace, resulting value table, and explorer
generator — is reproducible from the Explorer's generator alone, independent
of the space generator's state.  (Full reproducibility with exploration
requires fixing both generators; in this deterministic embedding that case
is definitional.) -/
theorem eps0_runs_independent_of_space_rng
    (ops : List Op) (L : Learner) (os as : Space) (r s1 s2 : Rng)
    (hwf : r.wf) :
    (runOps ⟨⟨0, L, os, as, r, s1⟩⟩ ops).map (fun p => (p.1, stripSpace p.2)) =
      (runOps ⟨⟨0, L, os, as, r, s2⟩⟩ ops).map (fun p => (p.1, stripSpace p.2)) :=
  runOps_eps0_strip os as ops L r s1 s2 hwf

/-- Witness for the amended C4: a one-step run with `epsilon = 0` over the
tied learner, with two different space-generator states. -/
theorem eps0_runs_independent_of_space_rng_witness :
    (constRng 0).wf ∧
    (runOps ⟨⟨0, exTieLearner, .discrete 1, .discrete 2, constRng 0,
        constRng 0⟩⟩ [.choose 0]).map (fun p => (p.1, stripSpace p.2)) =
      (runOps ⟨⟨0, exTieLearner, .discrete 1, .discrete 2, constRng 0,
        constRng (1/2)⟩⟩ [.choose 0]).map (fun p => (p.1, stripSpace p.2)) := by
  have hwf : (constRng 0).wf := by
    intro i
    constructor
    · exact le_refl 0
    · show (0 : ℚ) < 1
      norm_num
  exact ⟨hwf, eps0_runs_independent_of_space_rng [.choose 0] exTieLearner
    (.discrete 1) (.discrete 2) (constRng 0) (constRng 0) (constRng (1/2)) hwf⟩

/-- C5: a freshly constructed discrete-space agent has an all-zero table,
and any successful sequence of driver calls followed by `reset()` brings the
value table back to the fresh all-zero table. -/
theorem zero_init_and_reset_roundtrip
    (n m : ℕ) (lr gamma epsilon : ℚ) (rng srng : Rng) (ag0 : QLearningAgent)
    (h0 : mkAgent (.discrete n) (.discrete m) lr gamma epsilon rng srng = .ok ag0) :
    (∀ i j : ℕ, i < n → j < m →
      ag0.learner.qfunc.get_q_value (i : ℤ) (j : ℤ) = .ok 0) ∧
    (∀ (ops : List Op) (tr : List ℕ) (ag2 : QLearningAgent),
      runOps ag0 ops = .ok (tr, ag2) →
      ag2.reset.learner.qfunc = ag0.learner.qfunc) := by
  have h0' : Except.ok (⟨⟨epsilon, ⟨lr, gamma, .discrete (np_zeros n m)⟩,
      .discrete n, .discrete m, rng, srng⟩⟩ : QLearningAgent) = Except.ok ag0 := h0
  have hag0 : ag0 = ⟨⟨epsilon, ⟨lr, gamma, .discrete (np_zeros n m)⟩,
      .discrete n, .discrete m, rng, srng⟩⟩ := (Except.ok.inj h0').symm
  subst hag0
  constructor
  · intro i j hi hj
    have hs : pyIndex (np_zeros n m).size (i : ℤ) = some i := by
      rw [show (np_zeros n m).size = n by simp [np_zeros]]
      exact pyIndex_natCast hi
    have ha : pyIndex ((np_zeros n m).getD i #[]).size (j : ℤ) = some j := by
      rw [np_zeros_getD hi, show (Array.mkArray m (0 : ℚ)).size = m by simp]
      exact pyIndex_natCast hj
    show QFunc.get_q_value (.discrete (np_zeros n m)) (i : ℤ) (j : ℤ) = .ok 0
    rw [get_q_value_discrete _ _ _ i j hs ha, np_zeros_getD hi,
      getD_eq_getElem _ _ (by simpa using hj)]
    simp
  · intro ops tr ag2 h
    have hsh0 : AgentShaped ⟨⟨epsilon, ⟨lr, gamma, .discrete (np_zeros n m)⟩,
        .discrete n, .discrete m, rng, srng⟩⟩ n m :=
      ⟨np_zeros n m, rfl, shaped_np_zeros n m⟩
    obtain ⟨t, hqf, hts⟩ := runOps_shaped ops _ tr ag2 hsh0 h
    have hres : ag2.reset.learner.qfunc = QFunc.reset ag2.learner.qfunc := rfl
    rw [hres, hqf]
    simp only [QFunc.reset]
    rw [reset_eq_np_zeros hts]
    rfl

/-- Witness for C5: the concrete fresh 2×2 agent; one update followed by
`reset()` restores the all-zero table. -/
theorem zero_init_and_reset_roundtrip_witness :
    mkAgent (.discrete 2) (.discrete 2) (1/2) (9/10) (1/10) (constRng 0)
      (constRng 0) = .ok exAgent ∧
    exAgent.learner.qfunc.get_q_value 1 1 = .ok 0 ∧
    runOps exAgent [.update 0 0 1 1] = .ok ([], exAgentUpd) ∧
    exAgentUpd.reset.learner.qfunc = exAgent.learner.qfunc := by
  have h0 : mkAgent (.discrete 2) (.discrete 2) (1/2) (9/10) (1/10) (constRng 0)
      (constRng 0) = .ok exAgent := rfl
  have hrun : runOps exAgent [.update 0 0 1 1] = .ok ([], exAgentUpd) := rfl
  have hmain := zero_init_and_reset_roundtrip 2 2 (1/2) (9/10) (1/10)
    (constRng 0) (constRng 0) exAgent h0
  exact ⟨h0, hmain.1 1 1 (by omega) (by omega), hrun,
    hmain.2 [.update 0 0 1 1] [] exAgentUpd hrun⟩

/-- C9: after any successful sequence of driver calls on a fresh
discrete-space agent, the table still has exactly the declared `n × m`
shape and every in-bounds `(state, action)` read succeeds with a defined
rational value (rationals carry no NaN or infinity, so every entry is a
finite number). -/
theorem table_entries_defined_invariant
    (n m : ℕ) (lr gamma epsilon : ℚ) (rng srng : Rng) (ops : List Op)
    (ag0 ag2 : QLearningAgent) (tr : List ℕ)
    (h0 : mkAgent (.discrete n) (.discrete m) lr gamma epsilon rng srng = .ok ag0)
    (h : runOps ag0 ops = .ok (tr, ag2)) :
    ∃ t, ag2.learner.qfunc = .discrete t ∧ Shaped t n m ∧
      ∀ i j : ℕ, i < n → j < m →
        ag2.learner.qfunc.get_q_value (i : ℤ) (j : ℤ) =
          .ok ((t.getD i #[]).getD j 0) := by
  have h0' : Except.ok (⟨⟨epsilon, ⟨lr, gamma, .discrete (np_zeros n m)⟩,
      .discrete n, .discrete m, rng, srng⟩⟩ : QLearningAgent) = Except.ok ag0 := h0
  have hag0 : ag0 = ⟨⟨epsilon, ⟨lr, gamma, .discrete (np_zeros n m)⟩,
      .discrete n, .discrete m, rng, srng⟩⟩ := (Except.ok.inj h0').symm
  subst hag0
  have hsh0 : AgentShaped ⟨⟨epsilon, ⟨lr, gamma, .discrete (np_zeros n m)⟩,
      .discrete n, .discrete m, rng, srng⟩⟩ n m :=
    ⟨np_zeros n m, rfl, shaped_np_zeros n m⟩
  obtain ⟨t, hqf, hts⟩ := runOps_shaped ops _ tr ag2 hsh0 h
  refine ⟨t, hqf, hts, ?_⟩
  intro i j hi hj
  have hs : pyIndex t.size (i : ℤ) = some i := by
    rw [hts.1]
    exact pyIndex_natCast hi
  have ha : pyIndex (t.getD i #[]).size (j : ℤ) = some j := by
    rw [hts.2 i (by rw [hts.1]; exact hi)]
    exact pyIndex_natCast hj
  rw [hqf]
  exact get_q_value_discrete t _ _ i j hs ha

/-- Witness for C9: the run `update(0,0,1,1); reset()` on the concrete 2×2
agent ends with a well-shaped, everywhere-defined table. -/
theorem table_entries_defined_invariant_witness :
    mkAgent (.discrete 2) (.discrete 2) (1/2) (9/10) (1/10) (constRng 0)
      (constRng 0) = .ok exAgent ∧
    runOps exAgent [.update 0 0 1 1, .reset] = .ok ([], exAgent) ∧
    (∃ t, exAgent.learner.qfunc = .discrete t ∧ Shaped t 2 2 ∧
      ∀ i j : ℕ, i < 2 → j < 2 →
        exAgent.learner.qfunc.get_q_value (i : ℤ) (j : ℤ) =
          .ok ((t.getD i #[]).getD j 0)) := by
  have h0 : mkAgent (.discrete 2) (.discrete 2) (1/2) (9/10) (1/10) (constRng 0)
      (constRng 0) = .ok exAgent := rfl
  have hrun : runOps exAgent [.update 0 0 1 1, .reset] = .ok ([], exAgent) := rfl
  exact ⟨h0, hrun, table_entries_defined_invariant 2 2 (1/2) (9/10) (1/10)
    (constRng 0) (constRng 0) [.update 0 0 1 1, .reset] exAgent exAgent [] h0 hrun⟩

/-- C3: with `epsilon = 0`, `choose_action` takes the exploitation branch and
returns an action whose value equals the row maximum, chosen from the set of
ALL indices attaining the maximum under exact equality (`max_ids`), not
first-index-wins: every maximizing index is returned for some well-formed
generator; the tie-break selector equals `j` exactly on the interval
`[j/k, (j+1)/k)` of uniform length `1/k` (uniform tie-break); the learner is
untouched; and when the maximizer is unique the same action is returned for
every well-formed generator, hence deterministically on repeated calls. -/
theorem eps0_returns_argmax
    (e : EpsilonGreedy) (state : ℤ) (qs : Array ℚ) (mx : ℚ)
    (hε : e.epsilon = 0) (hwf : e.rng.wf)
    (hqs : e.learner.get_qs_for_actions state = .ok qs)
    (hmx : e.learner.max_q_prime state = .ok mx) :
    ∃ a e2, e.choose_action state = .ok (a, e2) ∧
      a < qs.size ∧ qs.getD a 0 = mx ∧
      (∀ i, i < qs.size → qs.getD i 0 ≤ mx) ∧
      e2.learner = e.learner ∧
      (∀ i, i < qs.size → qs.getD i 0 = mx →
        ∃ (r2 : Rng) (e3 : EpsilonGreedy), r2.wf ∧
          EpsilonGreedy.choose_action
            ⟨0, e.learner, e.obs_space, e.action_space, r2, e.space_rng⟩ state =
            .ok (i, e3)) ∧
      (∀ j : ℕ, ∀ u : ℚ, j < (max_ids qs mx).size → 0 ≤ u → u < 1 →
        ((Rat.floor (u * (max_ids qs mx).size)).toNat = j ↔
          (j : ℚ) / (max_ids qs mx).size ≤ u ∧
            u < ((j : ℚ) + 1) / (max_ids qs mx).size)) ∧
      ((∀ i j, i < qs.size → qs.getD i 0 = mx → j < qs.size →
          qs.getD j 0 = mx → i = j) →
        ∀ r2 : Rng, r2.wf →
          ∃ e3, EpsilonGreedy.choose_action
            ⟨0, e.learner, e.obs_space, e.action_space, r2, e.space_rng⟩ state =
            .ok (a, e3)) := by
  have hmax := max_of_qs hqs hmx
  obtain ⟨⟨i0, hi0, hgi0⟩, hub⟩ := np_max_ok hmax
  have hkpos : 0 < (max_ids qs mx).size := by
    have hmem : i0 ∈ max_ids qs mx := mem_max_ids.mpr ⟨hi0, hgi0⟩
    rw [Array.mem_def] at hmem
    have hlen : (max_ids qs mx).toList.length = (max_ids qs mx).size :=
      Array.length_toList
    have := List.length_pos_of_mem hmem
    omega
  have heval : ∀ r2 : Rng, r2.wf →
      EpsilonGreedy.choose_action
        ⟨0, e.learner, e.obs_space, e.action_space, r2, e.space_rng⟩ state =
      .ok ((max_ids qs mx).getD
          (Rat.floor (r2.stream (r2.pos + 1) * (max_ids qs mx).size)).toNat 0,
        ⟨0, e.learner, e.obs_space, e.action_space,
          ⟨r2.stream, r2.pos + 2⟩, e.space_rng⟩) := by
    intro r2 hwf2
    exact choose_action_eps0
      ⟨0, e.learner, e.obs_space, e.action_space, r2, e.space_rng⟩
      state qs mx rfl hwf2 hqs hmx
  have hrun := choose_action_eps0 e state qs mx hε hwf hqs hmx
  have hsel : (Rat.floor (e.rng.stream (e.rng.pos + 1) *
      (max_ids qs mx).size)).toNat < (max_ids qs mx).size :=
    floor_mul_toNat_lt (hwf (e.rng.pos + 1)).1 (hwf (e.rng.pos + 1)).2 hkpos
  obtain ⟨halt, hamax⟩ := mem_max_ids.mp (getD_mem (max_ids qs mx) 0 hsel)
  refine ⟨_, _, hrun, halt, hamax, hub, rfl, ?_, ?_, ?_⟩
  · intro i hi hmxi
    have himem : i ∈ max_ids qs mx := mem_max_ids.mpr ⟨hi, hmxi⟩
    rw [Array.mem_def] at himem
    obtain ⟨idx, hidxl, hgidx⟩ := List.mem_iff_getElem.mp himem
    have hlen : (max_ids qs mx).toList.length = (max_ids qs mx).size :=
      Array.length_toList
    have hidx : idx < (max_ids qs mx).size := by omega
    have hgidx2 : (max_ids qs mx)[idx] = i := by
      rw [← Array.getElem_toList hidx]
      exact hgidx
    have hkq : (0 : ℚ) < (max_ids qs mx).size := by exact_mod_cast hkpos
    have hwf2 : (constRng ((idx : ℚ) / (max_ids qs mx).size)).wf := by
      intro nn
      constructor
      · exact div_nonneg (by positivity) (le_of_lt hkq)
      · show (idx : ℚ) / (max_ids qs mx).size < 1
        rw [div_lt_one hkq]
        exact_mod_cast hidx
    have heq2 := heval (constRng ((idx : ℚ) / (max_ids qs mx).size)) hwf2
    have hself : (Rat.floor ((constRng ((idx : ℚ) / (max_ids qs mx).size)).stream
        ((constRng ((idx : ℚ) / (max_ids qs mx).size)).pos + 1) *
        (max_ids qs mx).size)).toNat = idx := by
      show (Rat.floor (((idx : ℚ) / (max_ids qs mx).size) *
        (max_ids qs mx).size)).toNat = idx
      apply (floor_mul_toNat_eq_iff
        (div_nonneg (by positivity) (le_of_lt hkq)) hkpos).mpr
      refine ⟨le_refl _, ?_⟩
      apply div_lt_div_of_pos_right ?_ hkq
      linarith
    rw [hself, getD_eq_getElem _ _ hidx, hgidx2] at heq2
    exact ⟨constRng ((idx : ℚ) / (max_ids qs mx).size), _, hwf2, heq2⟩
  · intro j u hj h0 h1
    exact floor_mul_toNat_eq_iff h0 hkpos
  · intro huniq r2 hwf2
    have hsel2 : (Rat.floor (r2.stream (r2.pos + 1) *
        (max_ids qs mx).size)).toNat < (max_ids qs mx).size :=
      floor_mul_toNat_lt (hwf2 (r2.pos + 1)).1 (hwf2 (r2.pos + 1)).2 hkpos
    obtain ⟨hblt, hbmax⟩ := mem_max_ids.mp (getD_mem (max_ids qs mx) 0 hsel2)
    have heq := huniq _ _ hblt hbmax halt hamax
    have := heval r2 hwf2
    rw [heq] at this
    exact ⟨_, this⟩

/-- Witness for C3: the tied 1×2 row `#[1, 1]` with `epsilon = 0` and the
constant-zero generator. -/
theorem eps0_returns_argmax_witness :
    exTieExplorer.epsilon = 0 ∧
    exTieExplorer.rng.wf ∧
    exTieExplorer.learner.get_qs_for_actions 0 = .ok #[1, 1] ∧
    exTieExplorer.learner.max_q_prime 0 = .ok 1 ∧
    (∃ a e2, exTieExplorer.choose_action 0 = .ok (a, e2) ∧
      a < (#[(1 : ℚ), 1] : Array ℚ).size ∧
      (#[(1 : ℚ), 1] : Array ℚ).getD a 0 = 1 ∧
      (∀ i, i < (#[(1 : ℚ), 1] : Array ℚ).size →
        (#[(1 : ℚ), 1] : Array ℚ).getD i 0 ≤ 1) ∧
      e2.learner = exTieExplorer.learner ∧
      (∀ i, i < (#[(1 : ℚ), 1] : Array ℚ).size →
        (#[(1 : ℚ), 1] : Array ℚ).getD i 0 = 1 →
        ∃ (r2 : Rng) (e3 : EpsilonGreedy), r2.wf ∧
          EpsilonGreedy.choose_action
            ⟨0, exTieExplorer.learner, exTieExplorer.obs_space,
              exTieExplorer.action_space, r2, exTieExplorer.space_rng⟩ 0 =
            .ok (i, e3)) ∧
      (∀ j : ℕ, ∀ u : ℚ, j < (max_ids #[(1 : ℚ), 1] 1).size → 0 ≤ u → u < 1 →
        ((Rat.floor (u * (max_ids #[(1 : ℚ), 1] 1).size)).toNat = j ↔
          (j : ℚ) / (max_ids #[(1 : ℚ), 1] 1).size ≤ u ∧
            u < ((j : ℚ) + 1) / (max_ids #[(1 : ℚ), 1] 1).size)) ∧
      ((∀ i j, i < (#[(1 : ℚ), 1] : Array ℚ).size →
          (#[(1 : ℚ), 1] : Array ℚ).getD i 0 = 1 →
          j < (#[(1 : ℚ), 1] : Array ℚ).size →
          (#[(1 : ℚ), 1] : Array ℚ).getD j 0 = 1 → i = j) →
        ∀ r2 : Rng, r2.wf →
          ∃ e3, EpsilonGreedy.choose_action
            ⟨0, exTieExplorer.learner, exTieExplorer.obs_space,
              exTieExplorer.action_space, r2, exTieExplorer.space_rng⟩ 0 =
            .ok (a, e3))) := by
  have hε : exTieExplorer.epsilon = 0 := rfl
  have hwf : exTieExplorer.rng.wf := by
    intro i
    constructor
    · exact le_refl 0
    · show (0 : ℚ) < 1
      norm_num
  have hqs : exTieExplorer.learner.get_qs_for_actions 0 = .ok #[1, 1] := rfl
  have hmx : exTieExplorer.learner.max_q_prime 0 = .ok 1 := by
    show Except.ok (max 1 1) = Except.ok 1
    norm_num
  exact ⟨hε, hwf, hqs, hmx,
    eps0_returns_argmax exTieExplorer 0 #[1, 1] 1 hε hwf hqs hmx⟩

/-- C7: for a `Box` (continuous) observation space, construction of the
Learner/Agent succeeds, and every subsequent `get_q_value`, `max_q_prime`,
`update` or `get_qs_for_actions` call fails with `NotImplementedError`
(the spec's `UnsupportedSpaceKind`): the failure point is the first
learning call, not construction. -/
theorem continuous_space_first_use_fails :
    ∀ (learning_rate gamma epsilon : ℚ) (action_space : Space) (rng space_rng : Rng),
      ∃ ag : QLearningAgent,
        mkAgent .box action_space learning_rate gamma epsilon rng space_rng = .ok ag ∧
        mkLearner learning_rate gamma .box action_space = .ok ag.learner ∧
        (∀ state action,
          ag.learner.qfunc.get_q_value state action = .error .notImplementedError) ∧
        (∀ state,
          ag.learner.qfunc.max_q_prime state = .error .notImplementedError) ∧
        (∀ v state action,
          ag.learner.qfunc.update v state action = .error .notImplementedError) ∧
        (∀ state,
          ag.learner.qfunc.get_qs_for_actions state = .error .notImplementedError) := by
  intro learning_rate gamma epsilon action_space rng space_rng
  refine ⟨⟨⟨epsilon, ⟨learning_rate, gamma, .continuous []⟩, .box, action_space,
    rng, space_rng⟩⟩, rfl, rfl, ?_, ?_, ?_, ?_⟩
  · intro state action; rfl
  · intro state; rfl
  · intro v state action; rfl
  · intro state; rfl

/-- C6: with `epsilon = 1` and a well-formed explorer generator, the
tradeoff draw always satisfies `r < 1 = epsilon`, so `choose_action` always
takes the exploration branch; the returned action is the action space's own
sample — in range whenever the space's generator is well-formed, with the
uniform interval law — and is independent of the value table: replacing the
learner by ANY other learner yields the same action. -/
theorem eps1_explores_table_independent
    (e : EpsilonGreedy) (state : ℤ) (nA : ℕ)
    (hε : e.epsilon = 1) (hwf : e.rng.wf)
    (has : e.action_space = .discrete nA) :
    (e.rng.next.1 < e.epsilon) ∧
    (∃ e2, e.choose_action state =
      .ok ((Rat.floor (e.space_rng.stream e.space_rng.pos * nA)).toNat, e2) ∧
      e2.learner = e.learner) ∧
    (∀ l2 : Learner, ∃ e3,
      EpsilonGreedy.choose_action
        ⟨e.epsilon, l2, e.obs_space, e.action_space, e.rng, e.space_rng⟩ state =
        .ok ((Rat.floor (e.space_rng.stream e.space_rng.pos * nA)).toNat, e3)) ∧
    (e.space_rng.wf → 0 < nA →
      (Rat.floor (e.space_rng.stream e.space_rng.pos * nA)).toNat < nA) ∧
    (∀ j : ℕ, ∀ u : ℚ, j < nA → 0 ≤ u → u < 1 →
      ((Rat.floor (u * nA)).toNat = j ↔
        (j : ℚ) / nA ≤ u ∧ u < ((j : ℚ) + 1) / nA)) := by
  have hb : e.rng.next.1 < e.epsilon := by
    rw [hε]
    exact (hwf e.rng.pos).2
  refine ⟨hb, ⟨_, choose_action_explore e state has hb, rfl⟩, ?_, ?_, ?_⟩
  · intro l2
    exact ⟨_, choose_action_explore
      ⟨e.epsilon, l2, e.obs_space, e.action_space, e.rng, e.space_rng⟩
      state has hb⟩
  · intro hwfs hnA
    exact floor_mul_toNat_lt (hwfs e.space_rng.pos).1 (hwfs e.space_rng.pos).2 hnA
  · intro j u hj h0 h1
    exact floor_mul_toNat_eq_iff h0 (by omega)

/-- Witness for C6: the concrete `epsilon = 1` explorer over the 1×2
learner, action space `Discrete(2)`. -/
theorem eps1_explores_table_independent_witness :
    exExploreExplorer.epsilon = 1 ∧
    exExploreExplorer.rng.wf ∧
    exExploreExplorer.action_space = .discrete 2 ∧
    ((exExploreExplorer.rng.next.1 < exExploreExplorer.epsilon) ∧
      (∃ e2, exExploreExplorer.choose_action 0 =
        .ok ((Rat.floor (exExploreExplorer.space_rng.stream
            exExploreExplorer.space_rng.pos * 2)).toNat, e2) ∧
        e2.learner = exExploreExplorer.learner) ∧
      (∀ l2 : Learner, ∃ e3,
        EpsilonGreedy.choose_action
          ⟨exExploreExplorer.epsilon, l2, exExploreExplorer.obs_space,
            exExploreExplorer.action_space, exExploreExplorer.rng,
            exExploreExplorer.space_rng⟩ 0 =
          .ok ((Rat.floor (exExploreExplorer.space_rng.stream
              exExploreExplorer.space_rng.pos * 2)).toNat, e3)) ∧
      (exExploreExplorer.space_rng.wf → 0 < 2 →
        (Rat.floor (exExploreExplorer.space_rng.stream
            exExploreExplorer.space_rng.pos * 2)).toNat < 2) ∧
      (∀ j : ℕ, ∀ u : ℚ, j < 2 → 0 ≤ u → u < 1 →
        ((Rat.floor (u * 2)).toNat = j ↔
          (j : ℚ) / 2 ≤ u ∧ u < ((j : ℚ) + 1) / 2))) := by
  have hε : exExploreExplorer.epsilon = 1 := rfl
  have hwf : exExploreExplorer.rng.wf := by
    intro i
    constructor
    · exact le_refl 0
    · show (0 : ℚ) < 1
      norm_num
  have has : exExploreExplorer.action_space = .discrete 2 := rfl
  exact ⟨hε, hwf, has,
    eps1_explores_table_independent exExploreExplorer 0 2 hε hwf has⟩

/-- C8 counterexample: the index `-1` is outside `{0,…,n−1}` (and negative),
yet on the 2×2 table `get_q_value(-1, 0)` succeeds — numpy wraps negative
indices in `[-n, -1]` to `index + n` — and likewise `update(-1, 0)` writes
row `n−1` without error, contradicting the claim that every out-of-bounds
index (including negative ones) raises `OutOfRange`. -/
theorem negative_index_wraps_counterexample :
    exLearner.qfunc.get_q_value (-1) 0 = .ok 0 ∧
    exLearner.qfunc.get_q_value (-1) 0 ≠ .error .indexError ∧
    exLearner.qfunc.update 5 (-1) 0 = .ok (.discrete #[#[0, 0], #[5, 0]]) := by
  refine ⟨rfl, ?_, rfl⟩
  intro h
  have h0 : exLearner.qfunc.get_q_value (-1) 0 = .ok 0 := rfl
  rw [h0] at h
  exact Except.noConfusion h

/-- C8 amended: with Python/numpy index semantics, `get_q_value` and
`update` raise `IndexError` (the spec's `OutOfRange`) exactly when the state
index falls outside `[-n, n)` or the action index falls outside `[-m, m)`;
indices in `[-n, -1]` wrap to `index + n` and succeed.  The error propagates
unrecovered through `calc_q_update` to `Agent.update`'s caller. -/
theorem out_of_range_iff
    (t : QTable) (n m : ℕ) (hsh : Shaped t n m) (state action : ℤ) (v : ℚ) :
    (QFunc.get_q_value (.discrete t) state action = .error .indexError ↔
      (state < -(n : ℤ) ∨ (n : ℤ) ≤ state ∨
        action < -(m : ℤ) ∨ (m : ℤ) ≤ action)) ∧
    (QFunc.update (.discrete t) v state action = .error .indexError ↔
      (state < -(n : ℤ) ∨ (n : ℤ) ≤ state ∨
        action < -(m : ℤ) ∨ (m : ℤ) ≤ action)) ∧
    (0 < m → ∀ (ag : QLearningAgent) (reward : ℚ) (new_state : ℤ),
      ag.learner.qfunc = .discrete t →
      (state < -(n : ℤ) ∨ (n : ℤ) ≤ state ∨
        action < -(m : ℤ) ∨ (m : ℤ) ≤ action) →
      ag.update state action reward new_state = .error .indexError) := by
  obtain ⟨hn, hm⟩ := hsh
  have herr_state : (state < -(n : ℤ) ∨ (n : ℤ) ≤ state) →
      pyIndex t.size state = none := by
    intro h1
    rw [pyIndex_eq_none, hn]
    omega
  have herr_action : ∀ i0, pyIndex t.size state = some i0 →
      (action < -(m : ℤ) ∨ (m : ℤ) ≤ action) →
      pyIndex (t.getD i0 #[]).size action = none := by
    intro i0 hi0 h1
    rw [pyIndex_eq_none, hm i0 (pyIndex_some_lt hi0)]
    omega
  have hsome : ∀ (len : ℕ) (i : ℤ) (j : ℕ), pyIndex len i = some j →
      ¬(i < -(len : ℤ) ∨ (len : ℤ) ≤ i) := by
    intro len i j hj hc
    rw [show pyIndex len i = none from pyIndex_eq_none.mpr hc] at hj
    exact Option.noConfusion hj
  have hget : QFunc.get_q_value (.discrete t) state action =
      .error .indexError ↔
      (state < -(n : ℤ) ∨ (n : ℤ) ≤ state ∨
        action < -(m : ℤ) ∨ (m : ℤ) ≤ action) := by
    constructor
    · intro h
      by_contra hc
      push_neg at hc
      obtain ⟨hc1, hc2, hc3, hc4⟩ := hc
      cases hps : pyIndex t.size state with
      | none =>
          rw [pyIndex_eq_none, hn] at hps
          omega
      | some i0 =>
          cases hpa : pyIndex (t.getD i0 #[]).size action with
          | none =>
              rw [pyIndex_eq_none, hm i0 (pyIndex_some_lt hps)] at hpa
              omega
          | some j0 =>
              rw [get_q_value_discrete t state action i0 j0 hps hpa] at h
              exact Except.noConfusion h
    · intro hc
      rcases hc with h1 | h1 | h1 | h1
      · exact get_q_value_discrete_err_state t state action
          (herr_state (Or.inl h1))
      · exact get_q_value_discrete_err_state t state action
          (herr_state (Or.inr h1))
      · cases hps : pyIndex t.size state with
        | none => exact get_q_value_discrete_err_state t state action hps
        | some i0 =>
            exact get_q_value_discrete_err_action t state action i0 hps
              (herr_action i0 hps (Or.inl h1))
      · cases hps : pyIndex t.size state with
        | none => exact get_q_value_discrete_err_state t state action hps
        | some i0 =>
            exact get_q_value_discrete_err_action t state action i0 hps
              (herr_action i0 hps (Or.inr h1))
  have hupd : QFunc.update (.discrete t) v state action =
      .error .indexError ↔
      (state < -(n : ℤ) ∨ (n : ℤ) ≤ state ∨
        action < -(m : ℤ) ∨ (m : ℤ) ≤ action) := by
    constructor
    · intro h
      by_contra hc
      push_neg at hc
      obtain ⟨hc1, hc2, hc3, hc4⟩ := hc
      cases hps : pyIndex t.size state with
      | none =>
          rw [pyIndex_eq_none, hn] at hps
          omega
      | some i0 =>
          cases hpa : pyIndex (t.getD i0 #[]).size action with
          | none =>
              rw [pyIndex_eq_none, hm i0 (pyIndex_some_lt hps)] at hpa
              omega
          | some j0 =>
              rw [qfunc_update_discrete t v state action i0 j0 hps hpa] at h
              exact Except.noConfusion h
    · intro hc
      rcases hc with h1 | h1 | h1 | h1
      · exact qfunc_update_discrete_err_state t v state action
          (herr_state (Or.inl h1))
      · exact qfunc_update_discrete_err_state t v state action
          (herr_state (Or.inr h1))
      · cases hps : pyIndex t.size state with
        | none => exact qfunc_update_discrete_err_state t v state action hps
        | some i0 =>
            exact qfunc_update_discrete_err_action t v state action i0 hps
              (herr_action i0 hps (Or.inl h1))
      · cases hps : pyIndex t.size state with
        | none => exact qfunc_update_discrete_err_state t v state action hps
        | some i0 =>
            exact qfunc_update_discrete_err_action t v state action i0 hps
              (herr_action i0 hps (Or.inr h1))
  refine ⟨hget, hupd, ?_⟩
  intro hmpos ag reward new_state hqf hc
  have hcalc : ag.learner.calc_q_update state action reward new_state =
      .error .indexError := by
    cases hps : pyIndex t.size new_state with
    | none =>
        have hmax : ag.learner.qfunc.max_q_prime new_state =
            .error .indexError := by
          rw [hqf]
          simp only [QFunc.max_q_prime, hps, toIdx, Bind.bind, Except.bind]
        simp only [Learner.calc_q_update, hmax, Bind.bind, Except.bind]
    | some k =>
        have hrow : 0 < (t.getD k #[]).size := by
          rw [hm k (pyIndex_some_lt hps)]
          exact hmpos
        obtain ⟨vmax, hvmax⟩ := np_max_ok_of_size hrow
        have hmax : ag.learner.qfunc.max_q_prime new_state = .ok vmax := by
          rw [hqf]
          simp only [QFunc.max_q_prime, hps, toIdx, Bind.bind, Except.bind]
          exact hvmax
        have hget2 : ag.learner.qfunc.get_q_value state action =
            .error .indexError := by
          rw [hqf]
          exact hget.mpr hc
        simp only [Learner.calc_q_update, hmax, hget2, Bind.bind, Except.bind]
  simp only [QLearningAgent.update, hcalc, Bind.bind, Except.bind]

/-- Witness for the amended C8: the 2×2 table, state index `5` (out of
range on both conventions), action `0`. -/
theorem out_of_range_iff_witness :
    Shaped exTable 2 2 ∧
    ((QFunc.get_q_value (.discrete exTable) 5 0 = .error .indexError ↔
      ((5 : ℤ) < -(2 : ℤ) ∨ (2 : ℤ) ≤ 5 ∨
        (0 : ℤ) < -(2 : ℤ) ∨ (2 : ℤ) ≤ 0)) ∧
    (QFunc.update (.discrete exTable) 7 5 0 = .error .indexError ↔
      ((5 : ℤ) < -(2 : ℤ) ∨ (2 : ℤ) ≤ 5 ∨
        (0 : ℤ) < -(2 : ℤ) ∨ (2 : ℤ) ≤ 0)) ∧
    (0 < 2 → ∀ (ag : QLearningAgent) (reward : ℚ) (new_state : ℤ),
      ag.learner.qfunc = .discrete exTable →
      ((5 : ℤ) < -(2 : ℤ) ∨ (2 : ℤ) ≤ 5 ∨
        (0 : ℤ) < -(2 : ℤ) ∨ (2 : ℤ) ≤ 0) →
      ag.update 5 0 reward new_state = .error .indexError)) := by
  have hsh : Shaped exTable 2 2 := by
    constructor
    · rfl
    · decide
  exact ⟨hsh, out_of_range_iff exTable 2 2 hsh 5 0 7⟩

/-- C10: constructing a Learner (and hence an Agent) whose observation space
is neither `Discrete` nor `Box` fails immediately at construction time with
`NotImplementedError`, before any learning call. -/
theorem other_space_construction_fails :
    ∀ (learning_rate gamma epsilon : ℚ) (action_space : Space) (rng space_rng : Rng),
      mkLearner learning_rate gamma .other action_space = .error .notImplementedError ∧
      mkAgent .other action_space learning_rate gamma epsilon rng space_rng =
        .error .notImplementedError := by
  intro learning_rate gamma epsilon action_space rng space_rng
  exact ⟨rfl, rfl⟩

end SmolRL
